import Mathlib

/-!
Verification of the ASM-to-PIL lowering engine (`src/asm_compiler/mod.rs`).

The Rust source is shallowly embedded: the AST and PIL statement types are
translated structurally, `BTreeMap` becomes a key-sorted association list,
`HashMap` (used only for point lookups, never iterated) becomes an
association list with replace-on-insert semantics, arbitrary-precision
integers become `Int`, and every `panic!` / failed `assert!` / `unwrap()`
becomes `Except.error`.
-/

namespace PowdrAsm

/-- Modelled from the spec: arbitrary-precision integers (`AbstractNumberType`). -/
abbrev AbstractNumberType := Int

/-- Modelled from the spec: the trace-length type (`DegreeType`, a machine word
used only for power-of-two trace lengths). -/
abbrev DegreeType := Nat

/-- Modelled from the spec: binary operators of the expression vocabulary
(add/sub/mul and the unused operators carried for compatibility). -/
inductive BinaryOperator where
  | Add | Sub | Mul | Div | Mod | Pow
  | BinaryAnd | BinaryXor | BinaryOr | ShiftLeft | ShiftRight
deriving DecidableEq, Repr

/-- Modelled from the spec: unary operators (only minus is meaningful). -/
inductive UnaryOperator where
  | Plus | Minus
deriving DecidableEq, Repr

/-- Modelled from the spec: a column reference. The field `namespc` renders the
source field `namespace` (a Lean keyword); `index` stands in for an optional
array index, and `next` is the next-row flag. -/
structure PolynomialReference where
  namespc : Option String
  name : String
  index : Option AbstractNumberType
  next : Bool
deriving DecidableEq, Repr

/-- Modelled from the spec: the recursive expression sum type. `StringLit`
renders the source variant `String` (a clash with the Lean type name). -/
inductive Expression where
  | Constant (name : String)
  | PublicReference (name : String)
  | Number (value : AbstractNumberType)
  | StringLit (content : String)
  | Tuple (items : List Expression)
  | BinaryOperation (left : Expression) (op : BinaryOperator) (right : Expression)
  | UnaryOperation (op : UnaryOperator) (expr : Expression)
  | FunctionCall (name : String) (args : List Expression)
  | FreeInput (expr : Expression)
  | MatchExpression (scrutinee : Expression) (arms : List (Option AbstractNumberType × Expression))
  | PolynomialReference (r : PowdrAsm.PolynomialReference)

/-- Modelled from the spec: one side of a plookup or permutation identity. -/
structure SelectedExpressions where
  selector : Option Expression
  expressions : List Expression

/-- Modelled from the spec: a fixed-column array `[values] + [0]*`; `value` is
the plain literal and `padded` the literal padded with zeroes to the degree. -/
inductive ArrayExpression where
  | value (items : List Expression)
  | padded (items : List Expression)

/-- Modelled from the spec: `pad_with_zeroes` appends the `[0]*` padding. -/
def ArrayExpression.pad_with_zeroes : ArrayExpression → ArrayExpression
  | .value items => .padded items
  | .padded items => .padded items

/-- Modelled from the spec: the definition attached to a column: a constant
array, a mapping `name(i) -> expr`, or a prover query. -/
inductive FunctionDefinition where
  | Array (a : ArrayExpression)
  | Mapping (params : List String) (body : Expression)
  | Query (params : List String) (body : Expression)

/-- Modelled from the spec: a declared polynomial name with optional array size. -/
structure PolynomialName where
  name : String
  array_size : Option AbstractNumberType
deriving DecidableEq, Repr

/-- Modelled from the spec: the PIL statement vocabulary emitted by the
converter. -/
inductive Statement where
  | Namespace (start : Nat) (name : String) (degree : Expression)
  | PolynomialConstantDefinition (start : Nat) (name : String) (fdef : FunctionDefinition)
  | PolynomialCommitDeclaration (start : Nat) (names : List PolynomialName) (fdef : Option FunctionDefinition)
  | PolynomialIdentity (start : Nat) (expr : Expression)
  | PlookupIdentity (start : Nat) (left : SelectedExpressions) (right : SelectedExpressions)
  | PermutationIdentity (start : Nat) (left : SelectedExpressions) (right : SelectedExpressions)

/-- Modelled from the spec: the emitted PIL file, a statement list. -/
structure PILFile where
  statements : List Statement

/-- Modelled from the spec: register declaration flags. -/
inductive RegisterFlag where
  | IsPC | IsAssignment
deriving DecidableEq, Repr

/-- Modelled from the spec: an instruction parameter: name, assignment-register
binding (read side, write side) and optional static type tag. -/
structure InstructionParam where
  name : String
  assignment_reg : Option (Option String) × Option (Option String)
  param_type : Option String
deriving DecidableEq, Repr

/-- Modelled from the spec: the lookup/permutation operator in instruction bodies. -/
inductive PlookupOperator where
  | In | Is
deriving DecidableEq, Repr

/-- Modelled from the spec: one element of an instruction body. -/
inductive InstructionBodyElement where
  | Expression (e : PowdrAsm.Expression)
  | PlookupIdentity (left : SelectedExpressions) (op : PlookupOperator) (right : SelectedExpressions)

/-- Modelled from the spec: one parsed assembly statement. -/
inductive ASMStatement where
  | Degree (start : Nat) (degree : AbstractNumberType)
  | RegisterDeclaration (start : Nat) (name : String) (flags : Option RegisterFlag)
  | InstructionDeclaration (start : Nat) (name : String) (params : List InstructionParam) (body : List InstructionBodyElement)
  | InlinePil (start : Nat) (statements : List Statement)
  | Assignment (start : Nat) (write_regs : List String) (assign_reg : Option String) (value : Expression)
  | Instruction (start : Nat) (name : String) (args : List Expression)
  | Label (start : Nat) (name : String)

/-- Modelled from the spec: a parsed assembly file, a statement list. -/
structure ASMFile where
  statements : List ASMStatement

/-- A register as accumulated by the converter: conditioned updates, optional
default update, and the assignment-register flag. -/
structure Register where
  conditioned_updates : List (Expression × Expression)
  default_update : Option Expression
  is_assignment : Bool

/-- An instruction as recorded by the converter: its parameter list. -/
structure Instruction where
  params : List InstructionParam
deriving DecidableEq, Repr

/-- One term component of a normalised affine assignment value. -/
inductive AffineExpressionComponent where
  | Register (name : String)
  | Constant
  | FreeInput (e : Expression)

/-- The lowered form of one assembly statement. -/
structure CodeLine where
  write_regs : List (String × List String) := []
  value : List (String × List (AbstractNumberType × AffineExpressionComponent)) := []
  label : Option String := none
  instruction : Option String := none
  instruction_literal_args : List (Option String) := []

/-- Lexicographic comparison of character lists by code point. -/
def strLtAux : List Char → List Char → Bool
  | [], [] => false
  | [], _ :: _ => true
  | _ :: _, [] => false
  | a :: as, b :: bs =>
    if a.toNat < b.toNat then true
    else if b.toNat < a.toNat then false
    else strLtAux as bs

/-- The lexicographic string order `BTreeMap` keys are sorted by (all names
in this program are ASCII, where code-point order is byte order). -/
def strLt (a b : String) : Bool := strLtAux a.data b.data

/-- Key-ordered insert into an association list, replacing an existing binding:
the model of `BTreeMap::insert`. -/
def btreeInsert (k : String) (v : α) : List (String × α) → List (String × α)
  | [] => [(k, v)]
  | (k', v') :: rest =>
    if strLt k k' then (k, v) :: (k', v') :: rest
    else if k = k' then (k, v) :: rest
    else (k', v') :: btreeInsert k v rest

/-- Replace-or-append insert into an association list: the model of
`HashMap::insert` for maps that are only ever read by key lookup. -/
def hashInsert (k : String) (v : α) : List (String × α) → List (String × α)
  | [] => [(k, v)]
  | (k', v') :: rest =>
    if k = k' then (k, v) :: rest else (k', v') :: hashInsert k v rest

/-- Source `witness_column`: a committed-polynomial declaration. -/
def witness_column (start : Nat) (name : String) (fdef : Option FunctionDefinition) : Statement :=
  .PolynomialCommitDeclaration start [⟨name, none⟩] fdef

/-- Source `direct_reference`: a current-row column reference. -/
def direct_reference (name : String) : Expression :=
  .PolynomialReference ⟨none, name, none, false⟩

/-- Source `next_reference`: a next-row column reference. -/
def next_reference (name : String) : Expression :=
  .PolynomialReference ⟨none, name, none, true⟩

/-- Source `build_binary_expr`. -/
def build_binary_expr (left : Expression) (op : BinaryOperator) (right : Expression) : Expression :=
  .BinaryOperation left op right

/-- Source `build_mul`. -/
def build_mul (left right : Expression) : Expression :=
  build_binary_expr left .Mul right

/-- Source `build_sub`. -/
def build_sub (left right : Expression) : Expression :=
  build_binary_expr left .Sub right

/-- Source `build_add`. -/
def build_add (left right : Expression) : Expression :=
  build_binary_expr left .Add right

/-- Source `build_unary_expr`. -/
def build_unary_expr (op : UnaryOperator) (exp : Expression) : Expression :=
  .UnaryOperation op exp

/-- Source `build_number`. -/
def build_number (value : AbstractNumberType) : Expression :=
  .Number value

/-- Source `extract_update`: recognise the top-level shape `X' - e`. The two
`assert_eq!` calls on the namespace and the index become errors. -/
def extract_update (expr : Expression) : Except String (Option String × Expression) :=
  match expr with
  | .BinaryOperation left BinaryOperator.Sub right =>
    match left with
    | .PolynomialReference ⟨ns, name, idx, true⟩ =>
      if ns = none then
        if idx = none then .ok (some name, right)
        else .error "assertion failed: index must be None"
      else .error "assertion failed: namespace must be None"
    | l => .ok (none, build_binary_expr l BinaryOperator.Sub right)
  | e => .ok (none, e)

/-- Source `substitute_string`: look the name up in the substitution map,
falling back to the name itself. -/
def substitute_string (input : String) (substitution : List (String × String)) : String :=
  (List.lookup input substitution).getD input

/-- Source `substitute`: rename column references throughout an expression.
Free-input holes (and all leaf variants) are returned unchanged. -/
def substitute (input : Expression) (substitution : List (String × String)) : Expression :=
  match input with
  | .PolynomialReference r =>
    .PolynomialReference { r with name := substitute_string r.name substitution }
  | .BinaryOperation left op right =>
    build_binary_expr (substitute left substitution) op (substitute right substitution)
  | .UnaryOperation op exp => build_unary_expr op (substitute exp substitution)
  | .FunctionCall name args =>
    .FunctionCall name (args.attach.map (fun a => substitute a.1 substitution))
  | .Tuple items => .Tuple (items.attach.map (fun a => substitute a.1 substitution))
  | .Constant n => .Constant n
  | .PublicReference n => .PublicReference n
  | .Number v => .Number v
  | .StringLit s => .StringLit s
  | .FreeInput inner => .FreeInput inner
  | .MatchExpression scrutinee arms =>
    .MatchExpression (substitute scrutinee substitution)
      (arms.attach.map (fun a => (a.1.1, substitute a.1.2 substitution)))
termination_by sizeOf input
decreasing_by
  all_goals simp_wf
  all_goals first
    | omega
    | (have hms := List.sizeOf_lt_of_mem a.2; omega)
    | (have h1 := List.sizeOf_lt_of_mem a.2
       have h2 : sizeOf a.1.2 < sizeOf a.1 := by
         obtain ⟨x, y⟩ := a.1
         simp
         try omega
       omega)

/-- Source `substitute_vec`. -/
def substitute_vec (input : List Expression) (substitution : List (String × String)) : List Expression :=
  input.map (fun e => substitute e substitution)

/-- Source `substitute_selected_exprs`. -/
def substitute_selected_exprs (input : SelectedExpressions) (substitution : List (String × String)) : SelectedExpressions :=
  ⟨input.selector.map (fun s => substitute s substitution),
   substitute_vec input.expressions substitution⟩

/-- Source `negate_assignment_value`. -/
def negate_assignment_value (expr : List (AbstractNumberType × AffineExpressionComponent)) :
    List (AbstractNumberType × AffineExpressionComponent) :=
  expr.map (fun vc => (-vc.1, vc.2))

/-- Source `add_assignment_value`: plain concatenation, no combining of terms. -/
def add_assignment_value (left right : List (AbstractNumberType × AffineExpressionComponent)) :
    List (AbstractNumberType × AffineExpressionComponent) :=
  left ++ right

/-- Source `process_assignment_value`: flatten an expression into an affine
term list; every `panic!` becomes an error. -/
def process_assignment_value (value : Expression) :
    Except String (List (AbstractNumberType × AffineExpressionComponent)) :=
  match value with
  | .Constant _ => .error "panicked: constant"
  | .PublicReference _ => .error "panicked: public reference"
  | .FunctionCall _ _ => .error "panicked: function call"
  | .PolynomialReference reference =>
    if reference.namespc = none then
      if reference.index = none then
        if reference.next = false then
          .ok [(1, .Register reference.name)]
        else .error "assertion failed: next"
      else .error "assertion failed: index"
    else .error "assertion failed: namespace"
  | .Number v => .ok [(v, .Constant)]
  | .StringLit _ => .error "panicked: string"
  | .Tuple _ => .error "panicked: tuple"
  | .MatchExpression _ _ => .error "panicked: match expression"
  | .FreeInput expr => .ok [(1, .FreeInput expr)]
  | .BinaryOperation left op right =>
    match op with
    | .Add => do
      let l ← process_assignment_value left
      let r ← process_assignment_value right
      .ok (add_assignment_value l r)
    | .Sub => do
      let l ← process_assignment_value left
      let r ← process_assignment_value right
      .ok (add_assignment_value l (negate_assignment_value r))
    | .Mul => do
      let l ← process_assignment_value left
      let r ← process_assignment_value right
      match l with
      | [(f, .Constant)] => .ok (r.map (fun p => (f * p.1, p.2)))
      | _ =>
        match r with
        | [(f, .Constant)] => .ok (l.map (fun p => (f * p.1, p.2)))
        | _ => .error "Multiplication by non-constant."
    | _ => .error "panicked: unsupported binary operator"
  | .UnaryOperation op expr =>
    if op = .Minus then do
      let v ← process_assignment_value expr
      .ok (negate_assignment_value v)
    else .error "assertion failed: unary operator must be minus"

/-- The model of `Iterator::reduce`: fold the tail onto the head. -/
def reduceList (f : α → α → α) : List α → Option α
  | [] => none
  | x :: xs => some (xs.foldl f x)

/-- Source `Register::update_expression`: the expression assigned to the
register in the next row, if any. The `unwrap` on the reduced sum cannot fire
because the reduced list is nonempty in the branches that use it; the
impossible case is rendered as `none`. -/
def Register.update_expression (r : Register) : Option Expression :=
  let updates := reduceList build_add
    (r.conditioned_updates.map (fun cv => build_mul cv.1 cv.2))
  match r.conditioned_updates.length, r.default_update with
  | 0, update => update
  | _ + 1, none => updates
  | _ + 1, some def_update =>
    match updates, reduceList build_add (r.conditioned_updates.map (fun cv => cv.1)) with
    | some u, some conds =>
      some (build_add u (build_mul (build_sub (build_number 1) conds) def_update))
    | _, _ => none

/-- Source `compute_label_positions`: enumerate the code lines, keep the
labelled ones, and collect the pairs into a hash map (later inserts replace
earlier ones). -/
def compute_label_positions (code_lines : List CodeLine) : List (String × Nat) :=
  code_lines.enum.foldl
    (fun m il =>
      match il.2.label with
      | some l => hashInsert l il.1 m
      | none => m)
    []

/-- The converter state (`ASMPILConverter`): the registers and instructions
maps are key-sorted association lists (`BTreeMap`). -/
structure ConverterState where
  degree_exponent : Nat := 0
  pil : List Statement := []
  pc_name : Option String := none
  registers : List (String × Register) := []
  instructions : List (String × Instruction) := []
  code_lines : List CodeLine := []
  line_lookup : List (String × String) := []
  program_constant_names : List String := []

/-- Fueled floor base-2 logarithm: halve while at least 2. With fuel at least
the argument this is the integer log2, and it reduces inside the kernel. -/
def ilog2Aux : Nat → Nat → Nat
  | 0, _ => 0
  | fuel + 1, n => if n ≥ 2 then ilog2Aux fuel (n / 2) + 1 else 0

/-- Source `ilog2` on the degree type: the floor base-2 logarithm. -/
def ilog2 (n : Nat) : Nat := ilog2Aux n n

/-- Source `is_power_of_two` on the degree type: true exactly when the value
is `2 ^ k` for some `k` (rendered through `ilog2` to stay executable; the
equivalence with the existential form is proved below). -/
def is_power_of_two (n : Nat) : Bool :=
  decide (0 < n) && decide (n = 2 ^ ilog2 n)

/-- Source `set_degree`: check the degree is a power of two and store its
base-2 logarithm; the failed assertion becomes an error. -/
def set_degree (degree : DegreeType) : Except String Nat :=
  if is_power_of_two degree then .ok (ilog2 degree)
  else .error "Degree should be a power of two"

/-- Modelled from the spec: `abstract_to_degree` converts the
arbitrary-precision degree literal to the machine degree type (the converter
itself lives outside the core sources). -/
def abstract_to_degree (v : AbstractNumberType) : DegreeType :=
  v.toNat

/-- Source `degree`: the trace length `1 << degree_exponent`. -/
def ConverterState.degree (st : ConverterState) : DegreeType :=
  1 <<< st.degree_exponent

/-- Append one PIL statement to the output. -/
def pushPil (st : ConverterState) (s : Statement) : ConverterState :=
  { st with pil := st.pil ++ [s] }

/-- Source `create_witness_fixed_pair`: declare a witness column and register
the pair `(name, p_name)` in the line lookup. -/
def create_witness_fixed_pair (st : ConverterState) (start : Nat) (name : String) : ConverterState :=
  let fixed_name := "p_" ++ name
  let st := pushPil st (witness_column start name none)
  { st with
    line_lookup := st.line_lookup ++ [(name, fixed_name)],
    program_constant_names := st.program_constant_names ++ [fixed_name] }

/-- Source `assignment_registers`: names of assignment registers, in map
(key-sorted) order. -/
def ConverterState.assignment_registers (st : ConverterState) : List String :=
  st.registers.filterMap (fun nr => if nr.2.is_assignment then some nr.1 else none)

/-- Source `regular_registers`: names of non-assignment registers, in map
(key-sorted) order. -/
def ConverterState.regular_registers (st : ConverterState) : List String :=
  st.registers.filterMap (fun nr => if nr.2.is_assignment then none else some nr.1)

/-- Source `handle_register_declaration`: emit the register witness column,
the first-row identity for stateful registers, and record the register with
its seeded conditioned updates and default update. A second PC declaration
fails the `assert_eq!` on `pc_name`. -/
def handle_register_declaration (st : ConverterState) (flags : Option RegisterFlag)
    (name : String) (start : Nat) : Except String ConverterState := do
  let (st, conditioned_updates, default_update) ←
    match flags with
    | some RegisterFlag.IsPC =>
      match st.pc_name with
      | some _ => .error "assertion failed: pc_name must be None"
      | none =>
        let st := { st with pc_name := some name }
        let st := { st with line_lookup := st.line_lookup ++ [(name, "line")] }
        let st := pushPil st (.PolynomialIdentity start
          (build_mul (direct_reference "first_step") (direct_reference name)))
        .ok (st, [(next_reference "first_step", build_number 0)],
             some (build_add (direct_reference name) (build_number 1)))
    | some RegisterFlag.IsAssignment =>
      .ok (st, ([] : List (Expression × Expression)), (none : Option Expression))
    | none =>
      let st := pushPil st (.PolynomialIdentity start
        (build_mul (direct_reference "first_step") (direct_reference name)))
      let cu0 : List (Expression × Expression) := [(next_reference "first_step", build_number 0)]
      let assignment_regs := st.assignment_registers
      let stcu := assignment_regs.foldl
        (fun acc reg =>
          let write_flag := "reg_write_" ++ reg ++ "_" ++ name
          (create_witness_fixed_pair acc.1 start write_flag,
           acc.2 ++ [(direct_reference write_flag, direct_reference reg)]))
        (st, cu0)
      .ok (stcu.1, stcu.2, some (direct_reference name))
  let st := { st with
    registers := btreeInsert name
      ⟨conditioned_updates, default_update, decide (flags = some RegisterFlag.IsAssignment)⟩
      st.registers }
  .ok (pushPil st (witness_column start name none))

/-- One element of an instruction body, from `handle_instruction_def`:
substitute literal parameters, then either push a conditioned update onto the
target register (`X' - rhs` shape) or emit `flag * e = 0`; plookups and
permutations get the instruction flag as LHS selector. -/
def processInstrBodyElement (st : ConverterState) (start : Nat) (instruction_flag : String)
    (substitutions : List (String × String)) (el : InstructionBodyElement) :
    Except String ConverterState :=
  match el with
  | .Expression expr =>
    let expr := substitute expr substitutions
    match extract_update expr with
    | .error e => .error e
    | .ok (some var, expr) =>
      match List.lookup var st.registers with
      | some reg =>
        let reg2 : Register := { reg with conditioned_updates :=
          reg.conditioned_updates ++ [(direct_reference instruction_flag, expr)] }
        .ok { st with registers := btreeInsert var reg2 st.registers }
      | none => .error "panicked: unknown register in update"
    | .ok (none, expr) =>
      .ok (pushPil st (.PolynomialIdentity 0
        (build_mul (direct_reference instruction_flag) expr)))
  | .PlookupIdentity left op right =>
    match left.selector with
    | some _ => .error "LHS selector not supported, could and-combine with instruction flag later."
    | none =>
      let l : SelectedExpressions :=
        ⟨some (direct_reference instruction_flag), substitute_vec left.expressions substitutions⟩
      let r := substitute_selected_exprs right substitutions
      .ok (pushPil st (match op with
        | .In => .PlookupIdentity start l r
        | .Is => .PermutationIdentity start l r))

/-- Source `handle_instruction_def`: create the instruction flag pair, the
literal-parameter columns and their substitution map, process the body, and
record the instruction (overwriting any earlier instruction of that name). -/
def handle_instruction_def (st : ConverterState) (start : Nat)
    (body : List InstructionBodyElement) (name : String) (params : List InstructionParam) :
    Except String ConverterState := do
  let instruction_flag := "instr_" ++ name
  let st := create_witness_fixed_pair st start instruction_flag
  let stsubs := params.foldl
    (fun acc p =>
      if p.assignment_reg.1.isNone && p.assignment_reg.2.isNone then
        let param_col_name := "instr_" ++ name ++ "_param_" ++ p.name
        (create_witness_fixed_pair acc.1 start param_col_name,
         hashInsert p.name param_col_name acc.2)
      else acc)
    (st, ([] : List (String × String)))
  let st ← body.foldlM
    (fun st el => processInstrBodyElement st start instruction_flag stsubs.2 el) stsubs.1
  .ok { st with instructions := btreeInsert name ⟨params⟩ st.instructions }

/-- Source `handle_assignment`: at most one write register, an explicit
assignment register, the value normalised to affine form. -/
def handle_assignment (st : ConverterState) (_start : Nat) (write_regs : List String)
    (assign_reg : Option String) (value : Expression) : Except String ConverterState :=
  if write_regs.length ≤ 1 then
    match assign_reg with
    | some areg =>
      match process_assignment_value value with
      | .error e => .error e
      | .ok v =>
        .ok { st with code_lines := st.code_lines ++
          [⟨[(areg, write_regs)], [(areg, v)], none, none, []⟩] }
    | none => .error "Implicit assign register not yet supported."
  else .error "assertion failed: at most one write register"

/-- The per-argument loop of `handle_instruction`, accumulating the read
values, the literal arguments and the write registers of one code line. -/
def instrArgsLoop (pairs : List (InstructionParam × Expression))
    (value : List (String × List (AbstractNumberType × AffineExpressionComponent)))
    (largs : List (Option String)) (write_regs : List (String × List String)) :
    Except String (List (String × List (AbstractNumberType × AffineExpressionComponent))
      × List (Option String) × List (String × List String)) :=
  match pairs with
  | [] => .ok (value, largs, write_regs)
  | (p, a) :: rest =>
    match p.assignment_reg.1 with
    | some ro =>
      match ro with
      | some reg =>
        if (List.lookup reg value).isSome then
          .error "assertion failed: value already contains key"
        else
          match process_assignment_value a with
          | .error e => .error e
          | .ok v => instrArgsLoop rest (btreeInsert reg v value) (largs ++ [none]) write_regs
      | none => .error "assertion failed: read register must be named"
    | none =>
      match p.assignment_reg.2 with
      | some wo =>
        match wo with
        | some reg =>
          match a with
          | .PolynomialReference r =>
            if r.next then .error "assertion failed: next"
            else if r.index ≠ none then .error "assertion failed: index"
            else if (List.lookup r.name write_regs).isSome then
              .error "assertion failed: write_regs already contains key"
            else instrArgsLoop rest value (largs ++ [none]) (btreeInsert reg [r.name] write_regs)
          | _ => .error "Expected direct register to assign to in instruction call."
        | none => .error "assertion failed: write register must be named"
      | none =>
        if p.param_type = some "label" then
          match a with
          | .PolynomialReference r => instrArgsLoop rest value (largs ++ [some r.name]) write_regs
          | _ => .error "panicked: label argument must be a reference"
        else .error "Param type not supported."

/-- Source `handle_instruction`: look the instruction up, check the arity,
lower the arguments and append the code line. -/
def handle_instruction (st : ConverterState) (instr_name : String) (args : List Expression) :
    Except String ConverterState := do
  let instr ←
    match List.lookup instr_name st.instructions with
    | some i => Except.ok i
    | none => Except.error "panicked: no entry found for instruction"
  if instr.params.length = args.length then do
    let vlw ← instrArgsLoop (instr.params.zip args) [] [] []
    if vlw.2.1.length = instr.params.length then
      .ok { st with code_lines := st.code_lines ++
        [⟨vlw.2.2, vlw.1, none, some instr_name, vlw.2.1⟩] }
    else .error "assertion failed: literal argument count"
  else .error "assertion failed: argument count"

/-- Source `handle_functional_instruction`: rewrite `reg <=A= f(args)` as the
instruction call `f(args..., reg)` after checking the final parameter is an
output through the same assignment register. -/
def handle_functional_instruction (st : ConverterState) (write_regs : List String)
    (assign_reg : Option String) (instr_name : String) (args : List Expression) :
    Except String ConverterState := do
  if write_regs.length = 1 then
    if assign_reg.isSome then do
      let instr ←
        match List.lookup instr_name st.instructions with
        | some i => Except.ok i
        | none => Except.error "panicked: no entry found for instruction"
      if instr.params.length = args.length + 1 then
        match instr.params.getLast? with
        | some last_param =>
          if last_param.param_type = none then
            if last_param.assignment_reg.1 = none then
              if last_param.assignment_reg.2 = some assign_reg then
                match write_regs.head? with
                | some w => handle_instruction st instr_name (args ++ [direct_reference w])
                | none => .error "assertion failed: write register missing"
              else .error "assertion failed: output binding mismatch"
            else .error "assertion failed: last parameter reads"
          else .error "assertion failed: last parameter is typed"
        | none => .error "assertion failed: no last parameter"
      else .error "assertion failed: argument count"
    else .error "assertion failed: assignment register required"
  else .error "assertion failed: exactly one write register"

/-- Source `create_constraints_for_assignment_reg`: the affine read constraint
of one assignment register, creating its constant, read-free and
read-coefficient pairs along the way. -/
def create_constraints_for_assignment_reg (st : ConverterState) (register : String) :
    Except String ConverterState :=
  let assign_const := register ++ "_const"
  let st := create_witness_fixed_pair st 0 assign_const
  let read_free := register ++ "_read_free"
  let st := create_witness_fixed_pair st 0 read_free
  let free_value := register ++ "_free_value"
  let regular := st.regular_registers
  let stterms := regular.foldl
    (fun acc name =>
      let read_coefficient := "read_" ++ register ++ "_" ++ name
      (create_witness_fixed_pair acc.1 0 read_coefficient,
       acc.2 ++ [build_mul (direct_reference read_coefficient) (direct_reference name)]))
    (st, ([] : List Expression))
  let st := stterms.1
  let all := stterms.2 ++
    [direct_reference assign_const,
     build_mul (direct_reference read_free) (direct_reference free_value)]
  match reduceList build_add all with
  | some assign_constraint =>
    .ok (pushPil st (.PolynomialIdentity 0
      (build_sub (direct_reference register) assign_constraint)))
  | none => .error "panicked: unwrap on empty reduce"

/-- The register-update identities of `convert` (lines 108 to 115): one
`R' - update = 0` per register whose update expression exists. -/
def updateIdentityStatements (st : ConverterState) : List Statement :=
  st.registers.filterMap
    (fun nr => nr.2.update_expression.map
      (fun update => Statement.PolynomialIdentity 0 (build_sub (next_reference nr.1) update)))

/-- Write one program-constant table entry: `program_constants[key][i] = v`;
a missing key is the source `unwrap`/`unwrap_or_else` panic. -/
def setProgramConstant (pcs : List (String × List AbstractNumberType)) (key : String)
    (i : Nat) (v : AbstractNumberType) (msg : String) :
    Except String (List (String × List AbstractNumberType)) :=
  match List.lookup key pcs with
  | some values => .ok (btreeInsert key (values.set i v) pcs)
  | none => .error msg

/-- The free-input query seeds of `translate_code_lines`: for every assignment
register, the tuple prefix `(i, pc)`; the `unwrap` on a missing PC becomes an
error. -/
def mkFreeValueQueries (st : ConverterState) :
    Except String (List (String × List Expression)) :=
  st.assignment_registers.foldlM
    (fun m r =>
      match st.pc_name with
      | some pc => .ok (btreeInsert r [direct_reference "i", direct_reference pc] m)
      | none => .error "panicked: unwrap on missing pc_name")
    []

/-- The body of the per-line loop of `translate_code_lines` for one code line
at row `i`: mark write flags, read coefficients, constants and free-input
reads, and the instruction flag and labelled literal arguments. -/
def translateLine (label_positions : List (String × Nat))
    (instructions : List (String × Instruction))
    (acc : List (String × List AbstractNumberType) × List (String × List Expression))
    (i : Nat) (line : CodeLine) :
    Except String (List (String × List AbstractNumberType) × List (String × List Expression)) := do
  let pcs := acc.1
  let fvq := acc.2
  let pcs ← line.write_regs.foldlM
    (fun pcs arw => arw.2.foldlM
      (fun pcs reg =>
        setProgramConstant pcs ("p_reg_write_" ++ arw.1 ++ "_" ++ reg) i 1
          "panicked: register write combination not found")
      pcs)
    pcs
  let pf ← line.value.foldlM
    (fun pf arv => arv.2.foldlM
      (fun pf ci =>
        match ci.2 with
        | .Register reg => do
          let pcs ← setProgramConstant pf.1 ("p_read_" ++ arv.1 ++ "_" ++ reg) i ci.1
            "panicked: register read combination not found"
          Except.ok (pcs, pf.2)
        | .Constant => do
          let pcs ← setProgramConstant pf.1 ("p_" ++ arv.1 ++ "_const") i ci.1
            "panicked: unwrap on missing constant column"
          Except.ok (pcs, pf.2)
        | .FreeInput expr => do
          let pcs ← setProgramConstant pf.1 ("p_" ++ arv.1 ++ "_read_free") i ci.1
            "panicked: unwrap on missing read_free column"
          match List.lookup arv.1 pf.2 with
          | some q =>
            Except.ok (pcs, btreeInsert arv.1
              (q ++ [Expression.Tuple [build_number (Int.ofNat i), expr]]) pf.2)
          | none => Except.error "panicked: unwrap on missing free value query")
      pf)
    (pcs, fvq)
  let pcs := pf.1
  let fvq := pf.2
  match line.instruction with
  | some instr => do
    let pcs ← line.write_regs.foldlM
      (fun pcs rw =>
        if rw.2.isEmpty then Except.ok pcs
        else setProgramConstant pcs ("p_" ++ rw.1 ++ "_read_free") i 1
          "panicked: unwrap on missing read_free column")
      pcs
    let pcs ← setProgramConstant pcs ("p_instr_" ++ instr) i 1
      "panicked: unwrap on missing instruction column"
    let instruction ←
      match List.lookup instr instructions with
      | some idef => Except.ok idef
      | none => Except.error "panicked: no entry found for instruction"
    let pcs ← (line.instruction_literal_args.zip instruction.params).foldlM
      (fun pcs ap =>
        match ap.1 with
        | some arg =>
          match List.lookup arg label_positions with
          | some pos =>
            setProgramConstant pcs ("p_instr_" ++ instr ++ "_param_" ++ ap.2.name) i
              (Int.ofNat pos) "panicked: unwrap on missing parameter column"
          | none => Except.error "panicked: no entry found for label"
        | none => Except.ok pcs)
      pcs
    Except.ok (pcs, fvq)
  | none =>
    if line.instruction_literal_args.isEmpty then Except.ok (pcs, fvq)
    else Except.error "assertion failed: literal arguments without instruction"

/-- The per-line loop of `translate_code_lines` over all enumerated lines. -/
def translateLines (label_positions : List (String × Nat))
    (instructions : List (String × Instruction)) (lines : List CodeLine) (i : Nat)
    (acc : List (String × List AbstractNumberType) × List (String × List Expression)) :
    Except String (List (String × List AbstractNumberType) × List (String × List Expression)) :=
  match lines with
  | [] => .ok acc
  | l :: rest => do
    let acc ← translateLine label_positions instructions acc i l
    translateLines label_positions instructions rest (i + 1) acc

/-- Source `translate_code_lines`: emit the `line` column, tabulate the
program constants over the code lines, declare the free-value query
witnesses, and emit the padded program-constant arrays. -/
def translate_code_lines (st : ConverterState) : Except String ConverterState := do
  let st := pushPil st (.PolynomialConstantDefinition 0 "line"
    (.Mapping ["i"] (direct_reference "i")))
  let program_constants := st.program_constant_names.foldl
    (fun m n => btreeInsert n (List.replicate st.code_lines.length (0 : AbstractNumberType)) m)
    []
  let free_value_queries ← mkFreeValueQueries st
  let label_positions := compute_label_positions st.code_lines
  let pf ← translateLines label_positions st.instructions st.code_lines 0
    (program_constants, free_value_queries)
  let free_value_pil ← st.assignment_registers.mapM
    (fun reg =>
      match List.lookup reg pf.2 with
      | some q =>
        Except.ok (witness_column 0 (reg ++ "_free_value")
          (some (.Query ["i"] (.Tuple q))))
      | none => Except.error "panicked: unwrap on missing free value query")
  let st := { st with pil := st.pil ++ free_value_pil }
  let st := pf.1.foldl
    (fun st nv => pushPil st (.PolynomialConstantDefinition 0 nv.1
      (.Array ((ArrayExpression.value (nv.2.map build_number)).pad_with_zeroes))))
    st
  .ok st

/-- One statement of the main `convert` loop. A `Degree` statement here (past
the first position) is the source panic. -/
def processStatement (st : ConverterState) (s : ASMStatement) : Except String ConverterState :=
  match s with
  | .Degree _ _ =>
    .error "The degree statement is only supported at the start of the asm source"
  | .RegisterDeclaration start name flags => handle_register_declaration st flags name start
  | .InstructionDeclaration start name params body =>
    handle_instruction_def st start body name params
  | .InlinePil _ statements => .ok { st with pil := st.pil ++ statements }
  | .Assignment start write_regs assign_reg value =>
    match value with
    | .FunctionCall function_name args =>
      handle_functional_instruction st write_regs assign_reg function_name args
    | v => handle_assignment st start write_regs assign_reg v
  | .Instruction _ instr_name args => handle_instruction st instr_name args
  | .Label _ name =>
    .ok { st with code_lines := st.code_lines ++ [⟨[], [], some name, none, []⟩] }

/-- The main statement loop of `convert`. -/
def processStatements (st : ConverterState) : List ASMStatement → Except String ConverterState
  | [] => .ok st
  | s :: rest => do
    let st ← processStatement st s
    processStatements st rest

/-- The degree phase of `convert` (lines 47 to 54): default the degree to
1024, then consume a leading `Degree` statement if present. -/
def degreeAndRest (statements : List ASMStatement) :
    Except String (Nat × List ASMStatement) := do
  let e ← set_degree 1024
  match statements with
  | ASMStatement.Degree _ d :: rest => do
    let e2 ← set_degree (abstract_to_degree d)
    Except.ok (e2, rest)
  | other => Except.ok (e, other)

/-- Source `convert`, returning the final converter state: degree phase,
namespace and `first_step` headers, the statement loop, the
assignment-register read constraints, the register-update identities, the
program materialisation and the closing line plookup. -/
def convertState (input : ASMFile) : Except String ConverterState := do
  let er ← degreeAndRest input.statements
  let st : ConverterState := { degree_exponent := er.1 }
  let st := pushPil st (.Namespace 0 "Assembly" (Expression.Number (Int.ofNat st.degree)))
  let st := pushPil st (.PolynomialConstantDefinition 0 "first_step"
    (.Array ((ArrayExpression.value [build_number 1]).pad_with_zeroes)))
  let st ← processStatements st er.2
  let st ← st.assignment_registers.foldlM create_constraints_for_assignment_reg st
  let st := { st with pil := st.pil ++ updateIdentityStatements st }
  let st ← translate_code_lines st
  let st := pushPil st (.PlookupIdentity 0
    ⟨none, st.line_lookup.map (fun x => direct_reference x.1)⟩
    ⟨none, st.line_lookup.map (fun x => direct_reference x.2)⟩)
  .ok st

/-- Source `convert`: the emitted PIL file. -/
def convert (input : ASMFile) : Except String PILFile :=
  (convertState input).map (fun st => PILFile.mk st.pil)

/-- True on a result that is `Except.ok`. -/
def isOkE (e : Except String α) : Bool :=
  match e with
  | .ok _ => true
  | .error _ => false

/-- True on a result that is `Except.error`. -/
def isErrorE (e : Except String α) : Bool :=
  match e with
  | .ok _ => false
  | .error _ => true

/-- True exactly on a register declaration flagged as program counter. -/
def declaresPC (s : ASMStatement) : Bool :=
  match s with
  | .RegisterDeclaration _ _ (some RegisterFlag.IsPC) => true
  | _ => false

/-- True exactly on a `Degree` statement. -/
def isDegreeStmt (s : ASMStatement) : Bool :=
  match s with
  | .Degree _ _ => true
  | _ => false

/-- True when a normalisation result is a single constant term: the pattern
the multiplication case of `process_assignment_value` tests for. -/
def isSingleConstant (res : Except String (List (AbstractNumberType × AffineExpressionComponent))) : Bool :=
  match res with
  | .ok [(_, .Constant)] => true
  | _ => false

/-- True exactly on the top-level shape recognised by `extract_update`: a
subtraction whose left operand is a next-row column reference. -/
def isSubNextRef (e : Expression) : Bool :=
  match e with
  | .BinaryOperation (.PolynomialReference r) .Sub _ => r.next
  | _ => false

/-- The state invariant of a compilation that never declares a PC: no PC name
is recorded and no line-lookup pair points at the `line` fixed column. -/
def GoodState (st : ConverterState) : Prop :=
  st.pc_name = none ∧ ∀ p ∈ st.line_lookup, p.2 ≠ "line"

/-- The converter state produced by the empty assembly file. -/
def emptyConvertedState : ConverterState :=
  { degree_exponent := 10,
    pil := [Statement.Namespace 0 "Assembly" (Expression.Number 1024),
      Statement.PolynomialConstantDefinition 0 "first_step"
        (FunctionDefinition.Array (ArrayExpression.padded [Expression.Number 1])),
      Statement.PolynomialConstantDefinition 0 "line"
        (FunctionDefinition.Mapping ["i"] (direct_reference "i")),
      Statement.PlookupIdentity 0 ⟨none, []⟩ ⟨none, []⟩] }

/-- The spec's `Σ c·v` sum over a nonempty conditioned-update list (written as
a left-associated fold, the shape the emitted expression tree has). -/
def specUpdateSum (c : Expression × Expression) (cs : List (Expression × Expression)) : Expression :=
  cs.foldl (fun acc cv => build_add acc (build_mul cv.1 cv.2)) (build_mul c.1 c.2)

/-- The spec's `Σ c` sum of the conditions of a nonempty conditioned-update
list. -/
def specCondSum (c : Expression × Expression) (cs : List (Expression × Expression)) : Expression :=
  cs.foldl (fun acc cv => build_add acc cv.1) c.1

/-- An empty assembly file. -/
def emptyFile : ASMFile := ⟨[]⟩

/-- A file declaring one assignment register and no program counter. -/
def noPcAssignFile : ASMFile :=
  ⟨[ASMStatement.RegisterDeclaration 0 "X" (some RegisterFlag.IsAssignment)]⟩

/-- A file declaring the same regular register twice. -/
def dupRegFile : ASMFile :=
  ⟨[ASMStatement.RegisterDeclaration 0 "A" none,
    ASMStatement.RegisterDeclaration 0 "A" none]⟩

/-- A file declaring the same instruction twice. -/
def dupInstrFile : ASMFile :=
  ⟨[ASMStatement.InstructionDeclaration 0 "foo" [] [],
    ASMStatement.InstructionDeclaration 0 "foo" [] []]⟩

/-- Two code lines carrying the same label. -/
def dupLabelLines : List CodeLine :=
  [⟨[], [], some "l", none, []⟩, ⟨[], [], some "l", none, []⟩]

/-- A subtraction whose left operand is a namespaced next-row reference. -/
def namespacedUpdate : Expression :=
  .BinaryOperation (.PolynomialReference ⟨some "ns", "X", none, true⟩)
    BinaryOperator.Sub (build_number 0)

/-- The converter state after declaring instruction `foo` on a fresh state. -/
def instrFooState : ConverterState :=
  { pil := [witness_column 0 "instr_foo" none],
    instructions := [("foo", ⟨[]⟩)],
    line_lookup := [("instr_foo", "p_instr_foo")],
    program_constant_names := ["p_instr_foo"] }

/-- The converter state after declaring assignment register `X` on a fresh
state. -/
def regXState : ConverterState :=
  { pil := [witness_column 0 "X" none],
    registers := [("X", ⟨[], none, true⟩)] }

/-- Three code lines with pairwise distinct labels (one unlabelled). -/
def distinctLabelLines : List CodeLine :=
  [⟨[], [], some "a", none, []⟩, ⟨[], [], none, none, []⟩, ⟨[], [], some "b", none, []⟩]

/-- The labelled enumeration pairs underlying `compute_label_positions`. -/
def labelPairs (lines : List CodeLine) : List (String × Nat) :=
  lines.enum.filterMap (fun il => il.2.label.map (fun l => (l, il.1)))

/-- C1. For a regular register with conditioned updates and optional default,
the synthesised update expression is: none when the list is empty and there
is no default; the sum of `c_k * v_k` when the list is nonempty and there is
no default; and that sum plus `(1 - sum of c_k) * d` when a default `d` is
present. -/
theorem c1_update_expression_synthesis :
    (∀ b : Bool, Register.update_expression ⟨[], none, b⟩ = none)
    ∧ (∀ (c : Expression × Expression) (cs : List (Expression × Expression)) (b : Bool),
        Register.update_expression ⟨c :: cs, none, b⟩ = some (specUpdateSum c cs))
    ∧ (∀ (c : Expression × Expression) (cs : List (Expression × Expression))
        (d : Expression) (b : Bool),
        Register.update_expression ⟨c :: cs, some d, b⟩ =
          some (build_add (specUpdateSum c cs)
            (build_mul (build_sub (build_number 1) (specCondSum c cs)) d))) := by
  refine ⟨fun b => rfl, fun c cs b => ?_, fun c cs d b => ?_⟩
  · show some ((cs.map (fun cv => build_mul cv.1 cv.2)).foldl build_add
      (build_mul c.1 c.2)) = some (specUpdateSum c cs)
    rw [List.foldl_map]
    rfl
  · show some (build_add
      ((cs.map (fun cv => build_mul cv.1 cv.2)).foldl build_add (build_mul c.1 c.2))
      (build_mul (build_sub (build_number 1)
        ((cs.map (fun cv => cv.1)).foldl build_add c.1)) d)) = _
    rw [List.foldl_map, List.foldl_map]
    rfl

/-- C10. A register with no conditioned updates but a default `d` gets the
update expression `d` itself, with no condition factor; an assignment
register (no conditioned updates, no default) gets none, so no update
identity is emitted for it. -/
theorem c10_empty_conditioned_updates :
    (∀ (d : Expression) (b : Bool), Register.update_expression ⟨[], some d, b⟩ = some d)
    ∧ (∀ b : Bool, Register.update_expression ⟨[], none, b⟩ = none)
    ∧ (∀ (name : String) (b : Bool),
        updateIdentityStatements { registers := [(name, ⟨[], none, b⟩)] } = [])
    ∧ (∀ (name : String) (d : Expression) (b : Bool),
        updateIdentityStatements { registers := [(name, ⟨[], some d, b⟩)] } =
          [Statement.PolynomialIdentity 0 (build_sub (next_reference name) d)]) :=
  ⟨fun _ _ => rfl, fun _ => rfl, fun _ _ => rfl, fun _ _ _ => rfl⟩

/-- C8. Compilation is deterministic: the converter is a pure function of the
input file, so two runs on the same input produce identical PIL output. -/
theorem c8_determinism (input : ASMFile) : convert input = convert input := rfl

/-- C9. `substitute` does not descend into free-input holes: a `FreeInput`
expression is returned unchanged under every substitution map, so literal
parameter names inside the hole are never replaced. -/
theorem c9_substitute_free_input (inner : Expression)
    (substitution : List (String × String)) :
    substitute (Expression.FreeInput inner) substitution = Expression.FreeInput inner := by
  simp [substitute]

/-- C5. Normalising `2 * (A + 3)` yields `[(2, A), (6, Constant)]`, as does
`(A + 3) * 2`; and a multiplication in which neither operand normalises to a
single constant term is a fatal error. -/
theorem c5_multiplication_normalisation :
    process_assignment_value (build_mul (build_number 2)
        (build_add (direct_reference "A") (build_number 3))) =
      Except.ok [(2, AffineExpressionComponent.Register "A"), (6, AffineExpressionComponent.Constant)]
    ∧ process_assignment_value (build_mul
        (build_add (direct_reference "A") (build_number 3)) (build_number 2)) =
      Except.ok [(2, AffineExpressionComponent.Register "A"), (6, AffineExpressionComponent.Constant)]
    ∧ (∀ l r : Expression, isSingleConstant (process_assignment_value l) = false →
        isSingleConstant (process_assignment_value r) = false →
        isErrorE (process_assignment_value (build_mul l r)) = true) := by
  refine ⟨rfl, rfl, fun l r h1 h2 => ?_⟩
  show isErrorE (process_assignment_value (Expression.BinaryOperation l BinaryOperator.Mul r)) = true
  cases hl : process_assignment_value l with
  | error e => simp [process_assignment_value, hl, isErrorE, Bind.bind, Except.bind]
  | ok lv =>
    cases hr : process_assignment_value r with
    | error e => simp [process_assignment_value, hl, hr, isErrorE, Bind.bind, Except.bind]
    | ok rv =>
      rw [hl] at h1
      rw [hr] at h2
      simp only [process_assignment_value, hl, hr, Bind.bind, Except.bind]
      split
      · simp [isSingleConstant] at h1
      · split
        · simp [isSingleConstant] at h2
        · rfl

/-- C5 witness: the hypotheses of the error case hold at `A * A`. -/
theorem c5_witness :
    isSingleConstant (process_assignment_value (direct_reference "A")) = false
    ∧ isErrorE (process_assignment_value
        (build_mul (direct_reference "A") (direct_reference "A"))) = true :=
  ⟨rfl, c5_multiplication_normalisation.2.2 (direct_reference "A") (direct_reference "A") rfl rfl⟩

/-- C7 counterexample: on a subtraction whose left operand is a namespaced
next-row reference, `extract_update` does not return `(None, e)` as the claim
states for every non-update shape; it aborts instead. -/
theorem c7_counterexample :
    extract_update namespacedUpdate ≠ Except.ok (none, namespacedUpdate) := by
  intro h
  have hred : extract_update namespacedUpdate =
      Except.error "assertion failed: namespace must be None" := rfl
  rw [hred] at h
  exact Except.noConfusion h

/-- C7 amended: `extract_update` returns `(Some X, rhs)` exactly on the shape
`X' - rhs` with a plain (no namespace, no index) next-row reference; on a
subtraction whose left operand is a next-row reference with a namespace or an
index it is a fatal error; on every other expression it returns `(None, e)`
unchanged. -/
theorem c7_extract_update_amended :
    (∀ (name : String) (rhs : Expression),
      extract_update (build_sub (next_reference name) rhs) = Except.ok (some name, rhs))
    ∧ (∀ e : Expression, isSubNextRef e = false → extract_update e = Except.ok (none, e))
    ∧ (∀ (ns : Option String) (name : String) (idx : Option AbstractNumberType)
        (rhs : Expression), ns ≠ none ∨ idx ≠ none →
        isErrorE (extract_update (Expression.BinaryOperation
          (Expression.PolynomialReference ⟨ns, name, idx, true⟩)
          BinaryOperator.Sub rhs)) = true)
    ∧ (∀ (e : Expression) (name : String) (rhs : Expression),
        extract_update e = Except.ok (some name, rhs) →
        e = build_sub (next_reference name) rhs) := by
  refine ⟨fun name rhs => rfl, fun e h => ?_, fun ns name idx rhs h => ?_, fun e name rhs h => ?_⟩
  · cases e <;> try rfl
    case BinaryOperation l op r =>
      cases op <;> try rfl
      case Sub =>
        cases l <;> try rfl
        case PolynomialReference rr =>
          obtain ⟨ns, nm, idx, nx⟩ := rr
          simp [isSubNextRef] at h
          subst h
          rfl
  · rcases h with h | h
    · cases ns with
      | none => exact absurd rfl h
      | some s => rfl
    · cases idx with
      | none => exact absurd rfl h
      | some i =>
        cases ns with
        | none => rfl
        | some s => rfl
  · cases e <;> simp only [extract_update] at h <;> try (simp at h)
    case BinaryOperation l op r =>
      cases op <;> try (simp at h)
      case Sub =>
        cases l <;> simp only [build_binary_expr] at h <;> try (simp at h)
        case PolynomialReference rr =>
          obtain ⟨ns, nm, idx, nx⟩ := rr
          cases nx with
          | false => simp at h
          | true =>
            cases ns with
            | some s => simp at h
            | none =>
              cases idx with
              | some i => simp at h
              | none =>
                simp at h
                obtain ⟨h1, h2⟩ := h
                subst h1
                subst h2
                rfl

/-- C7 witness: each hypothesised case of the amended theorem holds at a
concrete input. -/
theorem c7_witness :
    (isSubNextRef (build_number 5) = false
      ∧ extract_update (build_number 5) = Except.ok (none, build_number 5))
    ∧ isErrorE (extract_update (Expression.BinaryOperation
        (Expression.PolynomialReference ⟨some "ns", "X", none, true⟩)
        BinaryOperator.Sub (build_number 0))) = true
    ∧ build_sub (next_reference "A") (build_number 0) =
        build_sub (next_reference "A") (build_number 0) :=
  ⟨⟨rfl, c7_extract_update_amended.2.1 (build_number 5) rfl⟩,
   c7_extract_update_amended.2.2.1 (some "ns") "X" none (build_number 0)
     (Or.inl (fun hh => Option.noConfusion hh)),
   c7_extract_update_amended.2.2.2 (build_sub (next_reference "A") (build_number 0)) "A"
     (build_number 0) (c7_extract_update_amended.1 "A" (build_number 0))⟩

/-- Looking a key up after a hash insert: the inserted binding wins for its
own key and every other key is untouched. -/
theorem lookup_hashInsert (a b : String) (v : Nat) (m : List (String × Nat)) :
    List.lookup a (hashInsert b v m) = if a = b then some v else List.lookup a m := by
  induction m with
  | nil =>
    by_cases h : a = b
    · subst h
      simp [hashInsert, List.lookup]
    · simp [hashInsert, List.lookup, h, beq_eq_false_iff_ne.mpr h]
  | cons hd rest ih =>
    obtain ⟨ka, va⟩ := hd
    by_cases hbk : b = ka
    · subst hbk
      simp only [hashInsert, if_pos rfl]
      by_cases h : a = b
      · subst h
        simp [List.lookup]
      · simp [List.lookup, h, beq_eq_false_iff_ne.mpr h]
    · simp only [hashInsert, if_neg hbk]
      by_cases hak : a = ka
      · subst hak
        have h : a ≠ b := fun e => hbk e.symm
        simp [List.lookup, if_neg h]
      · simp [List.lookup, beq_eq_false_iff_ne.mpr hak, ih]

/-- Key lookup distributes over list append. -/
theorem lookup_append (xs ys : List (String × Nat)) (k : String) :
    List.lookup k (xs ++ ys) =
      match List.lookup k xs with
      | some v => some v
      | none => List.lookup k ys := by
  induction xs with
  | nil => rfl
  | cons a rest ih =>
    obtain ⟨ka, va⟩ := a
    by_cases h : k = ka
    · subst h
      simp [List.lookup]
    · simp [List.lookup, ih, beq_eq_false_iff_ne.mpr h]

/-- Folding hash inserts over a pair list: the last insert for a key wins,
which is lookup in the reversed pair list, falling back to the start map. -/
theorem lookup_foldl_hashInsert (ps : List (String × Nat)) (m : List (String × Nat)) (k : String) :
    List.lookup k (ps.foldl (fun m p => hashInsert p.1 p.2 m) m) =
      match List.lookup k ps.reverse with
      | some v => some v
      | none => List.lookup k m := by
  induction ps generalizing m with
  | nil => rfl
  | cons p rest ih =>
    simp only [List.foldl_cons, List.reverse_cons]
    rw [ih, lookup_append]
    cases List.lookup k rest.reverse with
    | some v => rfl
    | none =>
      obtain ⟨pk, pv⟩ := p
      rw [lookup_hashInsert]
      by_cases h : k = pk
      · subst h
        simp [List.lookup]
      · simp [List.lookup, h, beq_eq_false_iff_ne.mpr h]

/-- `compute_label_positions` is the hash-insert fold over the labelled
enumeration pairs. -/
theorem compute_label_positions_eq_fold (lines : List CodeLine) :
    compute_label_positions lines =
      (labelPairs lines).foldl (fun m p => hashInsert p.1 p.2 m) [] := by
  have main : ∀ (xs : List (Nat × CodeLine)) (m : List (String × Nat)),
      xs.foldl (fun m il =>
        match il.2.label with
        | some l => hashInsert l il.1 m
        | none => m) m =
      (xs.filterMap (fun il => il.2.label.map (fun l => (l, il.1)))).foldl
        (fun m p => hashInsert p.1 p.2 m) m := by
    intro xs
    induction xs with
    | nil => intro m; rfl
    | cons il rest ih =>
      intro m
      cases h : il.2.label <;> simp [List.filterMap_cons, h, ih]
  exact main lines.enum []

/-- An element at index `i` appears in the enumeration starting at `n` with
index `n + i`. -/
theorem mem_enumFrom_of_get? (xs : List CodeLine) (n i : Nat) (c : CodeLine)
    (h : xs.get? i = some c) : (n + i, c) ∈ List.enumFrom n xs := by
  induction xs generalizing n i with
  | nil => simp [List.get?] at h
  | cons a rest ih =>
    cases i with
    | zero =>
      simp [List.get?] at h
      subst h
      simp [List.enumFrom]
    | succ j =>
      simp only [List.get?] at h
      have := ih (n + 1) j h
      have harith : n + 1 + j = n + (j + 1) := by omega
      rw [harith] at this
      exact List.mem_cons_of_mem _ this

/-- The keys of the labelled enumeration pairs are exactly the labels of the
lines, in order. -/
theorem labelPairs_keys (lines : List CodeLine) :
    (labelPairs lines).map Prod.fst = lines.filterMap CodeLine.label := by
  have main : ∀ (xs : List CodeLine) (n : Nat),
      ((List.enumFrom n xs).filterMap
        (fun il => il.2.label.map (fun l => (l, il.1)))).map Prod.fst =
      xs.filterMap CodeLine.label := by
    intro xs
    induction xs with
    | nil => intro n; rfl
    | cons c rest ih =>
      intro n
      cases h : c.label <;>
        simp [List.enumFrom, List.filterMap_cons, h, ih (n + 1)]
  exact main lines 0

/-- Lookup in an association list with pairwise distinct keys finds the value
of any member pair. -/
theorem lookup_of_mem_of_nodup_keys (xs : List (String × Nat)) (l : String) (i : Nat)
    (hmem : (l, i) ∈ xs) (hnodup : (xs.map Prod.fst).Nodup) :
    List.lookup l xs = some i := by
  induction xs with
  | nil => simp at hmem
  | cons a rest ih =>
    obtain ⟨ka, va⟩ := a
    simp only [List.map_cons, List.nodup_cons] at hnodup
    rcases List.mem_cons.mp hmem with h | h
    · obtain ⟨h1, h2⟩ := Prod.mk.injEq .. ▸ h
      subst h1
      subst h2
      simp [List.lookup]
    · have hkey : l ∈ rest.map Prod.fst := List.mem_map_of_mem Prod.fst h
      have hne : l ≠ ka := fun e => hnodup.1 (e ▸ hkey)
      simp [List.lookup, beq_eq_false_iff_ne.mpr hne, ih h hnodup.2]

/-- C4 counterexample: with two code lines both labelled `l`, the
label-position map does not assign the label the index of (each) line that
carries it, and positions are not unique. -/
theorem c4_counterexample :
    ¬ ((∀ (i : Nat) (l : String),
          (dupLabelLines.get? i).bind CodeLine.label = some l →
          List.lookup l (compute_label_positions dupLabelLines) = some i)
      ∧ (∀ (i j : Nat) (l : String),
          (dupLabelLines.get? i).bind CodeLine.label = some l →
          (dupLabelLines.get? j).bind CodeLine.label = some l → i = j)) := by
  intro h
  exact absurd (h.2 0 1 "l" rfl rfl) (by omega)

/-- C4 amended: duplicate labels are not rejected (the later line overwrites
the earlier position); under the precondition that no two distinct code lines
carry the same label, the map assigns to each label the index of the code
line that carries it. -/
theorem c4_label_positions_amended (lines : List CodeLine) (i : Nat) (l : String)
    (hnodup : (lines.filterMap CodeLine.label).Nodup)
    (hcarry : (lines.get? i).bind CodeLine.label = some l) :
    List.lookup l (compute_label_positions lines) = some i := by
  cases hg : lines.get? i with
  | none => rw [hg] at hcarry; simp at hcarry
  | some c =>
    rw [hg] at hcarry
    have hcl : c.label = some l := hcarry
    have hmem : (l, i) ∈ labelPairs lines := by
      have henum : (i, c) ∈ lines.enum := by
        have := mem_enumFrom_of_get? lines 0 i c hg
        simpa [List.enum] using this
      exact List.mem_filterMap.mpr ⟨(i, c), henum, by simp [hcl]⟩
    have hkeys : ((labelPairs lines).map Prod.fst).Nodup := by
      rw [labelPairs_keys]
      exact hnodup
    have hrevmem : (l, i) ∈ (labelPairs lines).reverse := List.mem_reverse.mpr hmem
    have hrevkeys : (((labelPairs lines).reverse).map Prod.fst).Nodup := by
      rw [List.map_reverse]
      exact List.nodup_reverse.mpr hkeys
    have hrev := lookup_of_mem_of_nodup_keys _ l i hrevmem hrevkeys
    rw [compute_label_positions_eq_fold, lookup_foldl_hashInsert, hrev]

/-- C4 witness: the amended theorem applies to three lines with distinct
labels. -/
theorem c4_witness :
    (distinctLabelLines.filterMap CodeLine.label).Nodup
    ∧ (distinctLabelLines.get? 2).bind CodeLine.label = some "b"
    ∧ List.lookup "b" (compute_label_positions distinctLabelLines) = some 2 :=
  ⟨by decide, rfl, c4_label_positions_amended distinctLabelLines 2 "b" (by decide) rfl⟩

/-- The fueled logarithm is exact on powers of two, given enough fuel. -/
theorem ilog2Aux_pow (k : Nat) : ∀ fuel : Nat, 2 ^ k ≤ fuel → ilog2Aux fuel (2 ^ k) = k := by
  induction k with
  | zero =>
    intro fuel _
    cases fuel with
    | zero => rfl
    | succ f => simp [ilog2Aux]
  | succ k ih =>
    intro fuel h
    have hp : 0 < 2 ^ k := pow_pos (by norm_num) k
    have h2 : 2 ≤ 2 ^ (k + 1) := by
      rw [pow_succ]
      omega
    cases fuel with
    | zero => omega
    | succ f =>
      have hdiv : 2 ^ (k + 1) / 2 = 2 ^ k := by
        rw [pow_succ]
        exact Nat.mul_div_cancel _ (by norm_num)
      have hfuel : 2 ^ k ≤ f := by
        rw [pow_succ] at h
        omega
      simp only [ilog2Aux, if_pos h2, hdiv, ih f hfuel]

/-- The boolean power-of-two test agrees with the mathematical property. -/
theorem is_power_of_two_iff (n : Nat) : is_power_of_two n = true ↔ ∃ k, n = 2 ^ k := by
  constructor
  · intro h
    simp only [is_power_of_two, Bool.and_eq_true, decide_eq_true_eq] at h
    exact ⟨ilog2 n, h.2⟩
  · rintro ⟨k, rfl⟩
    have h1 : ilog2 (2 ^ k) = k := ilog2Aux_pow k (2 ^ k) le_rfl
    have hp : 0 < 2 ^ k := pow_pos (by norm_num) k
    simp [is_power_of_two, h1, hp]

/-- C6. The trace length defaults to 1024 (exponent 10); a leading `Degree(n)`
statement sets the trace length to `n` when `n` is a power of two and is a
fatal error otherwise; and a `Degree` statement anywhere past the first
position makes the statement loop fail. -/
theorem c6_degree_statement :
    (∀ n : Nat, is_power_of_two n = true ↔ ∃ k, n = 2 ^ k)
    ∧ ({ degree_exponent := 10 } : ConverterState).degree = 1024
    ∧ (∀ stmts : List ASMStatement,
        (∀ (s : Nat) (d : AbstractNumberType) (rest : List ASMStatement),
          stmts ≠ ASMStatement.Degree s d :: rest) →
        degreeAndRest stmts = Except.ok (10, stmts))
    ∧ (∀ (s : Nat) (d : AbstractNumberType) (rest : List ASMStatement),
        is_power_of_two (abstract_to_degree d) = true →
        degreeAndRest (ASMStatement.Degree s d :: rest) =
          Except.ok (ilog2 (abstract_to_degree d), rest)
        ∧ ({ degree_exponent := ilog2 (abstract_to_degree d) } : ConverterState).degree =
            abstract_to_degree d)
    ∧ (∀ (s : Nat) (d : AbstractNumberType) (rest : List ASMStatement),
        is_power_of_two (abstract_to_degree d) = false →
        degreeAndRest (ASMStatement.Degree s d :: rest) =
          Except.error "Degree should be a power of two")
    ∧ (∀ (st : ConverterState) (stmts : List ASMStatement) (st' : ConverterState),
        stmts.any isDegreeStmt = true → processStatements st stmts ≠ Except.ok st') := by
  have h1024 : set_degree 1024 = Except.ok 10 := rfl
  have hpt1024 : is_power_of_two 1024 = true := rfl
  refine ⟨is_power_of_two_iff, rfl, ?_, ?_, ?_, ?_⟩
  · intro stmts h
    cases stmts with
    | nil => rfl
    | cons s rest =>
      cases s with
      | Degree st d => exact absurd rfl (h st d rest)
      | RegisterDeclaration a b c => rfl
      | InstructionDeclaration a b c d => rfl
      | InlinePil a b => rfl
      | Assignment a b c d => rfl
      | Instruction a b c => rfl
      | Label a b => rfl
  · intro s d rest h
    constructor
    · simp [degreeAndRest, h1024, set_degree, h, hpt1024, Bind.bind, Except.bind]
    · have hn : abstract_to_degree d = 2 ^ ilog2 (abstract_to_degree d) := by
        simp only [is_power_of_two, Bool.and_eq_true, decide_eq_true_eq] at h
        exact h.2
      show 1 <<< ilog2 (abstract_to_degree d) = abstract_to_degree d
      rw [Nat.shiftLeft_eq, one_mul]
      exact hn.symm
  · intro s d rest h
    simp [degreeAndRest, h1024, set_degree, h, hpt1024, Bind.bind, Except.bind]
  · intro st stmts st'
    induction stmts generalizing st with
    | nil => intro hany; simp at hany
    | cons s rest ih =>
      intro hany hok
      simp only [processStatements, Bind.bind] at hok
      cases hps : processStatement st s with
      | error e =>
        rw [hps] at hok
        exact absurd hok (by simp [Except.bind])
      | ok st1 =>
        rw [hps] at hok
        simp only [Except.bind] at hok
        cases s with
        | Degree a b => simp [processStatement] at hps
        | RegisterDeclaration a b c =>
          exact ih st1 (by simpa [isDegreeStmt] using hany) hok
        | InstructionDeclaration a b c d =>
          exact ih st1 (by simpa [isDegreeStmt] using hany) hok
        | InlinePil a b =>
          exact ih st1 (by simpa [isDegreeStmt] using hany) hok
        | Assignment a b c d =>
          exact ih st1 (by simpa [isDegreeStmt] using hany) hok
        | Instruction a b c =>
          exact ih st1 (by simpa [isDegreeStmt] using hany) hok
        | Label a b =>
          exact ih st1 (by simpa [isDegreeStmt] using hany) hok

/-- C6 witness: the degree cases hold at concrete inputs: no leading degree,
`Degree(16)`, `Degree(3)` and a late `Degree(8)`. -/
theorem c6_witness :
    is_power_of_two 8 = true
    ∧ degreeAndRest [] = Except.ok (10, [])
    ∧ (degreeAndRest [ASMStatement.Degree 0 16] =
        Except.ok (ilog2 (abstract_to_degree 16), [])
      ∧ ({ degree_exponent := ilog2 (abstract_to_degree 16) } : ConverterState).degree =
          abstract_to_degree 16)
    ∧ degreeAndRest [ASMStatement.Degree 0 3] =
        Except.error "Degree should be a power of two"
    ∧ processStatements {} [ASMStatement.Degree 0 8] ≠ Except.ok {} :=
  ⟨(c6_degree_statement.1 8).mpr ⟨3, rfl⟩,
   c6_degree_statement.2.2.1 [] (fun _ _ _ h => List.noConfusion h),
   c6_degree_statement.2.2.2.1 0 16 [] rfl,
   c6_degree_statement.2.2.2.2.1 0 3 [] rfl,
   c6_degree_statement.2.2.2.2.2 {} [ASMStatement.Degree 0 8] {} rfl⟩

/-- Looking up a key right after a btree insert always finds the inserted
value: `BTreeMap::insert` replaces an existing binding. -/
theorem lookup_btreeInsert_self {α : Type} (k : String) (v : α) (m : List (String × α)) :
    List.lookup k (btreeInsert k v m) = some v := by
  induction m with
  | nil => simp [btreeInsert, List.lookup]
  | cons hd rest ih =>
    obtain ⟨ka, va⟩ := hd
    by_cases hlt : strLt k ka
    · simp [btreeInsert, hlt, List.lookup]
    · by_cases heq : k = ka
      · subst heq
        simp [btreeInsert, hlt, List.lookup]
      · simp [btreeInsert, hlt, heq, List.lookup,
          beq_eq_false_iff_ne.mpr heq, ih]

/-- C3 counterexample is folded into the amended theorem below: both duplicate
files compile successfully, so no fatal error is raised. -/
theorem c3_counterexample :
    isOkE (convert dupRegFile) = true ∧ isOkE (convert dupInstrFile) = true :=
  ⟨rfl, rfl⟩

/-- C3 amended: duplicate register or instruction declarations are not
detected: compilation proceeds and the later declaration simply replaces the
earlier one in the corresponding symbol table (only a second PC-flagged
declaration is a fatal error). -/
theorem c3_duplicate_declarations_amended :
    isOkE (convert dupRegFile) = true
    ∧ isOkE (convert dupInstrFile) = true
    ∧ (∀ (st : ConverterState) (start : Nat) (body : List InstructionBodyElement)
        (name : String) (params : List InstructionParam) (st' : ConverterState),
        handle_instruction_def st start body name params = Except.ok st' →
        List.lookup name st'.instructions = some ⟨params⟩)
    ∧ (∀ (st : ConverterState) (flags : Option RegisterFlag) (name : String)
        (start : Nat) (st' : ConverterState),
        handle_register_declaration st flags name start = Except.ok st' →
        ∃ r, List.lookup name st'.registers = some r
          ∧ r.is_assignment = decide (flags = some RegisterFlag.IsAssignment)) := by
  refine ⟨rfl, rfl, ?_, ?_⟩
  · intro st start body name params st' h
    simp only [handle_instruction_def, Bind.bind, Except.bind] at h
    split at h
    · exact absurd h (by simp)
    · injection h with h2
      rw [← h2]
      exact lookup_btreeInsert_self name (⟨params⟩ : Instruction) _
  · intro st flags name start st' h
    cases flags with
    | none =>
      simp only [handle_register_declaration, Bind.bind, Except.bind] at h
      injection h with h2
      rw [← h2]
      exact ⟨_, lookup_btreeInsert_self name _ _, rfl⟩
    | some f =>
      cases f with
      | IsAssignment =>
        simp only [handle_register_declaration, Bind.bind, Except.bind] at h
        injection h with h2
        rw [← h2]
        exact ⟨_, lookup_btreeInsert_self name _ _, rfl⟩
      | IsPC =>
        cases hpc : st.pc_name with
        | some p =>
          simp only [handle_register_declaration, hpc, Bind.bind, Except.bind] at h
          exact absurd h (by simp)
        | none =>
          simp only [handle_register_declaration, hpc, Bind.bind, Except.bind] at h
          injection h with h2
          rw [← h2]
          exact ⟨_, lookup_btreeInsert_self name _ _, rfl⟩

/-- C3 witness: the overwrite lemmas applied to a fresh state: declaring
instruction `foo` and assignment register `X` lands them in the tables. -/
theorem c3_witness :
    List.lookup "foo" instrFooState.instructions = some (⟨[]⟩ : Instruction)
    ∧ (∃ r, List.lookup "X" regXState.registers = some r
        ∧ r.is_assignment =
            decide ((some RegisterFlag.IsAssignment : Option RegisterFlag) =
              some RegisterFlag.IsAssignment)) :=
  ⟨c3_duplicate_declarations_amended.2.2.1 {} 0 [] "foo" [] instrFooState rfl,
   c3_duplicate_declarations_amended.2.2.2 {} (some RegisterFlag.IsAssignment) "X" 0
     regXState rfl⟩

/-- A string starting with `p_` is never the `line` column name. -/
theorem p_prefix_ne_line (s : String) : "p_" ++ s ≠ "line" := by
  intro h
  have hd : ("p_" ++ s).data = "line".data := congrArg String.data h
  rw [String.data_append] at hd
  simp at hd

/-- Inversion of a successful `Except` bind. -/
theorem except_bind_ok {α β : Type} {x : Except String α} {f : α → Except String β} {b : β}
    (h : x >>= f = Except.ok b) : ∃ a, x = Except.ok a ∧ f a = Except.ok b := by
  cases x with
  | error e => simp [Bind.bind, Except.bind] at h
  | ok a => exact ⟨a, rfl, by simpa [Bind.bind, Except.bind] using h⟩

/-- An invariant on the state component survives any fold whose step preserves
it. -/
theorem foldl_inv {α β : Type} (P : ConverterState → Prop)
    (step : ConverterState × β → α → ConverterState × β)
    (hstep : ∀ acc x, P acc.1 → P (step acc x).1) :
    ∀ (l : List α) (acc : ConverterState × β), P acc.1 → P (l.foldl step acc).1 := by
  intro l
  induction l with
  | nil => intro acc h; exact h
  | cons x xs ih => intro acc h; exact ih _ (hstep acc x h)

/-- `create_witness_fixed_pair` keeps the no-PC invariant: the new lookup pair
points at a `p_`-prefixed fixed column. -/
theorem goodState_cwfp (st : ConverterState) (start : Nat) (name : String)
    (h : GoodState st) : GoodState (create_witness_fixed_pair st start name) := by
  refine ⟨h.1, ?_⟩
  intro p hp
  rcases List.mem_append.mp hp with hmem | hmem
  · exact h.2 p hmem
  · rcases List.mem_singleton.mp hmem with rfl
    exact p_prefix_ne_line name

/-- Instruction-body elements leave the PC name and the line lookup alone. -/
theorem processInstrBodyElement_preserves (st : ConverterState) (start : Nat)
    (flag : String) (subs : List (String × String)) (el : InstructionBodyElement)
    (st' : ConverterState) (h : processInstrBodyElement st start flag subs el = Except.ok st') :
    st'.pc_name = st.pc_name ∧ st'.line_lookup = st.line_lookup := by
  cases el with
  | Expression expr =>
    simp only [processInstrBodyElement] at h
    split at h
    · exact absurd h (by simp)
    · split at h
      · injection h with h2
        rw [← h2]
        exact ⟨rfl, rfl⟩
      · exact absurd h (by simp)
    · injection h with h2
      rw [← h2]
      exact ⟨rfl, rfl⟩
  | PlookupIdentity left op right =>
    simp only [processInstrBodyElement] at h
    split at h
    · exact absurd h (by simp)
    · injection h with h2
      rw [← h2]
      exact ⟨rfl, rfl⟩

/-- The instruction-body fold leaves the PC name and the line lookup alone. -/
theorem foldlM_body_preserves (start : Nat) (flag : String) (subs : List (String × String)) :
    ∀ (body : List InstructionBodyElement) (st st' : ConverterState),
    body.foldlM (fun st el => processInstrBodyElement st start flag subs el) st = Except.ok st' →
    st'.pc_name = st.pc_name ∧ st'.line_lookup = st.line_lookup := by
  intro body
  induction body with
  | nil =>
    intro st st' h
    simp only [List.foldlM_nil] at h
    injection h with h2
    rw [← h2]
    exact ⟨rfl, rfl⟩
  | cons el rest ih =>
    intro st st' h
    rw [List.foldlM_cons] at h
    cases hel : processInstrBodyElement st start flag subs el with
    | error e =>
      rw [hel] at h
      simp [Bind.bind, Except.bind] at h
    | ok st1 =>
      rw [hel] at h
      simp only [Bind.bind, Except.bind] at h
      have h1 := processInstrBodyElement_preserves st start flag subs el st1 hel
      have h2 := ih st1 st' h
      exact ⟨h2.1.trans h1.1, h2.2.trans h1.2⟩

/-- `handle_instruction` only appends a code line: PC name and line lookup
are untouched. -/
theorem handle_instruction_preserves (st : ConverterState) (name : String)
    (args : List Expression) (st' : ConverterState)
    (h : handle_instruction st name args = Except.ok st') :
    st'.pc_name = st.pc_name ∧ st'.line_lookup = st.line_lookup := by
  simp only [handle_instruction, Bind.bind, Except.bind] at h
  repeat' split at h
  all_goals first
    | exact Except.noConfusion h
    | (injection h with h2
       rw [← h2]
       exact ⟨rfl, rfl⟩)

/-- `handle_functional_instruction` defers to `handle_instruction`: PC name
and line lookup are untouched. -/
theorem handle_functional_instruction_preserves (st : ConverterState)
    (write_regs : List String) (assign_reg : Option String) (name : String)
    (args : List Expression) (st' : ConverterState)
    (h : handle_functional_instruction st write_regs assign_reg name args = Except.ok st') :
    st'.pc_name = st.pc_name ∧ st'.line_lookup = st.line_lookup := by
  simp only [handle_functional_instruction, Bind.bind, Except.bind] at h
  repeat' split at h
  all_goals first
    | exact Except.noConfusion h
    | exact handle_instruction_preserves _ _ _ _ h

/-- `handle_assignment` only appends a code line: PC name and line lookup are
untouched. -/
theorem handle_assignment_preserves (st : ConverterState) (start : Nat)
    (write_regs : List String) (assign_reg : Option String) (value : Expression)
    (st' : ConverterState)
    (h : handle_assignment st start write_regs assign_reg value = Except.ok st') :
    st'.pc_name = st.pc_name ∧ st'.line_lookup = st.line_lookup := by
  simp only [handle_assignment] at h
  repeat' split at h
  all_goals first
    | exact Except.noConfusion h
    | (injection h with h2
       rw [← h2]
       exact ⟨rfl, rfl⟩)

/-- A non-PC register declaration keeps the no-PC invariant: it adds only
`p_`-prefixed lookup pairs and never sets the PC name. -/
theorem goodState_handle_register_declaration (st : ConverterState)
    (flags : Option RegisterFlag) (name : String) (start : Nat) (st' : ConverterState)
    (hflag : flags ≠ some RegisterFlag.IsPC)
    (h : handle_register_declaration st flags name start = Except.ok st')
    (hg : GoodState st) : GoodState st' := by
  cases flags with
  | none =>
    simp only [handle_register_declaration, Bind.bind, Except.bind] at h
    injection h with h2
    rw [← h2]
    have hfold := foldl_inv GoodState
      (fun acc reg =>
        (create_witness_fixed_pair acc.1 start ("reg_write_" ++ reg ++ "_" ++ name),
         acc.2 ++ [(direct_reference ("reg_write_" ++ reg ++ "_" ++ name), direct_reference reg)]))
      (fun acc x hacc => goodState_cwfp acc.1 start _ hacc)
      (pushPil st (.PolynomialIdentity start
        (build_mul (direct_reference "first_step") (direct_reference name)))).assignment_registers
      (pushPil st (.PolynomialIdentity start
        (build_mul (direct_reference "first_step") (direct_reference name))),
       [(next_reference "first_step", build_number 0)])
      hg
    exact hfold
  | some f =>
    cases f with
    | IsPC => exact absurd rfl hflag
    | IsAssignment =>
      simp only [handle_register_declaration, Bind.bind, Except.bind] at h
      injection h with h2
      rw [← h2]
      exact hg

/-- An instruction declaration keeps the no-PC invariant. -/
theorem goodState_handle_instruction_def (st : ConverterState) (start : Nat)
    (body : List InstructionBodyElement) (name : String) (params : List InstructionParam)
    (st' : ConverterState)
    (h : handle_instruction_def st start body name params = Except.ok st')
    (hg : GoodState st) : GoodState st' := by
  simp only [handle_instruction_def, Bind.bind, Except.bind] at h
  split at h
  · exact absurd h (by simp)
  · rename_i st2 heq
    injection h with h2
    rw [← h2]
    have hsubs : GoodState ((params.foldl
        (fun acc p =>
          if p.assignment_reg.1.isNone && p.assignment_reg.2.isNone then
            (create_witness_fixed_pair acc.1 start ("instr_" ++ name ++ "_param_" ++ p.name),
             hashInsert p.name ("instr_" ++ name ++ "_param_" ++ p.name) acc.2)
          else acc)
        (create_witness_fixed_pair st start ("instr_" ++ name),
         ([] : List (String × String))))).1 := by
      refine foldl_inv GoodState _ ?_ params _ (goodState_cwfp st start _ hg)
      intro acc p hacc
      by_cases hc : p.assignment_reg.1.isNone && p.assignment_reg.2.isNone
      · simp only [hc, if_true]
        exact goodState_cwfp acc.1 start _ hacc
      · simp only [hc, if_false]
        exact hacc
    have hbody := foldlM_body_preserves start ("instr_" ++ name) _ body _ st2 heq
    exact ⟨hbody.1.trans hsubs.1, by rw [hbody.2]; exact hsubs.2⟩

/-- One loop statement that does not declare a PC keeps the no-PC invariant. -/
theorem goodState_processStatement (st : ConverterState) (s : ASMStatement)
    (st' : ConverterState) (hs : declaresPC s = false)
    (h : processStatement st s = Except.ok st') (hg : GoodState st) : GoodState st' := by
  cases s with
  | Degree a b => simp [processStatement] at h
  | RegisterDeclaration start name flags =>
    have hflag : flags ≠ some RegisterFlag.IsPC := by
      intro he
      rw [he] at hs
      simp [declaresPC] at hs
    exact goodState_handle_register_declaration st flags name start st' hflag h hg
  | InstructionDeclaration start name params body =>
    exact goodState_handle_instruction_def st start body name params st' h hg
  | InlinePil a stmts =>
    simp only [processStatement] at h
    injection h with h2
    rw [← h2]
    exact hg
  | Assignment start write_regs assign_reg value =>
    simp only [processStatement] at h
    split at h
    · rename_i fname fargs
      have := handle_functional_instruction_preserves st write_regs assign_reg fname fargs st' h
      exact ⟨this.1.trans hg.1, by rw [this.2]; exact hg.2⟩
    · have := handle_assignment_preserves st start write_regs assign_reg _ st' h
      exact ⟨this.1.trans hg.1, by rw [this.2]; exact hg.2⟩
  | Instruction a name args =>
    have := handle_instruction_preserves st name args st' h
    exact ⟨this.1.trans hg.1, by rw [this.2]; exact hg.2⟩
  | Label a name =>
    simp only [processStatement] at h
    injection h with h2
    rw [← h2]
    exact hg

/-- The whole statement loop keeps the no-PC invariant when no statement
declares a PC. -/
theorem goodState_processStatements :
    ∀ (stmts : List ASMStatement) (st st' : ConverterState),
    (∀ s ∈ stmts, declaresPC s = false) →
    processStatements st stmts = Except.ok st' → GoodState st → GoodState st' := by
  intro stmts
  induction stmts with
  | nil =>
    intro st st' _ h hg
    simp only [processStatements] at h
    injection h with h2
    rw [← h2]
    exact hg
  | cons s rest ih =>
    intro st st' hall h hg
    simp only [processStatements, Bind.bind] at h
    cases hs : processStatement st s with
    | error e =>
      rw [hs] at h
      simp [Except.bind] at h
    | ok st1 =>
      rw [hs] at h
      simp only [Except.bind] at h
      have hg1 := goodState_processStatement st s st1 (hall s (List.mem_cons_self s rest)) hs hg
      exact ih st1 st' (fun x hx => hall x (List.mem_cons_of_mem s hx)) h hg1

/-- `pushPil` only touches the PIL list, so the no-PC invariant persists. -/
theorem goodState_pushPil (st : ConverterState) (s : Statement) (h : GoodState st) :
    GoodState (pushPil st s) := h

/-- `create_constraints_for_assignment_reg` only adds witness/fixed pairs:
the no-PC invariant persists and the register map is unchanged. -/
theorem create_constraints_preserves (st : ConverterState) (reg : String)
    (st' : ConverterState)
    (h : create_constraints_for_assignment_reg st reg = Except.ok st') :
    (GoodState st → GoodState st') ∧ st'.registers = st.registers := by
  simp only [create_constraints_for_assignment_reg] at h
  split at h
  · injection h with h2
    rw [← h2]
    have hres := foldl_inv
      (fun s => (GoodState st → GoodState s) ∧ s.registers = st.registers)
      (fun acc name2 =>
        (create_witness_fixed_pair acc.1 0 ("read_" ++ reg ++ "_" ++ name2),
         acc.2 ++ [build_mul (direct_reference ("read_" ++ reg ++ "_" ++ name2))
           (direct_reference name2)]))
      (fun acc x hacc => ⟨fun hg => goodState_cwfp acc.1 0 _ (hacc.1 hg), hacc.2⟩)
      (create_witness_fixed_pair (create_witness_fixed_pair st 0 (reg ++ "_const")) 0
        (reg ++ "_read_free")).regular_registers
      (create_witness_fixed_pair (create_witness_fixed_pair st 0 (reg ++ "_const")) 0
        (reg ++ "_read_free"), ([] : List Expression))
      ⟨fun hg => goodState_cwfp _ 0 _ (goodState_cwfp _ 0 _ hg), rfl⟩
    exact ⟨fun hg => goodState_pushPil _ _ (hres.1 hg), hres.2⟩
  · exact Except.noConfusion h

/-- The fold of the assignment-register read constraints preserves the no-PC
invariant and the register map. -/
theorem foldlM_ccfar : ∀ (regs : List String) (st st' : ConverterState),
    regs.foldlM create_constraints_for_assignment_reg st = Except.ok st' →
    (GoodState st → GoodState st') ∧ st'.registers = st.registers := by
  intro regs
  induction regs with
  | nil =>
    intro st st' h
    simp only [List.foldlM_nil] at h
    injection h with h2
    rw [← h2]
    exact ⟨id, rfl⟩
  | cons r rs ih =>
    intro st st' h
    rw [List.foldlM_cons] at h
    cases hc : create_constraints_for_assignment_reg st r with
    | error e =>
      rw [hc] at h
      simp [Bind.bind, Except.bind] at h
    | ok st1 =>
      rw [hc] at h
      simp only [Bind.bind, Except.bind] at h
      have h1 := create_constraints_preserves st r st1 hc
      have h2 := ih st1 st' h
      exact ⟨fun hg => h2.1 (h1.1 hg), h2.2.trans h1.2⟩

/-- A fold of PIL pushes leaves the PC name, the line lookup and the register
map alone. -/
theorem foldl_pushPil_fields {α : Type} (g : α → Statement) :
    ∀ (l : List α) (st : ConverterState),
    (l.foldl (fun st x => pushPil st (g x)) st).pc_name = st.pc_name
    ∧ (l.foldl (fun st x => pushPil st (g x)) st).line_lookup = st.line_lookup
    ∧ (l.foldl (fun st x => pushPil st (g x)) st).registers = st.registers := by
  intro l
  induction l with
  | nil => intro st; exact ⟨rfl, rfl, rfl⟩
  | cons x xs ih =>
    intro st
    have := ih (pushPil st (g x))
    exact ⟨this.1, this.2.1, this.2.2⟩

/-- With no PC name recorded, the free-value query construction succeeds only
when there are no assignment registers, and then it is empty. -/
theorem mkFreeValueQueries_none (st : ConverterState) (hpc : st.pc_name = none)
    (q : List (String × List Expression)) (h : mkFreeValueQueries st = Except.ok q) :
    st.assignment_registers = [] ∧ q = [] := by
  cases hl : st.assignment_registers with
  | nil =>
    simp only [mkFreeValueQueries] at h
    rw [hl] at h
    simp only [List.foldlM_nil, pure, Except.pure] at h
    injection h with h2
    exact ⟨rfl, h2.symm⟩
  | cons r rs =>
    simp only [mkFreeValueQueries] at h
    rw [hl, List.foldlM_cons, hpc] at h
    simp [Bind.bind, Except.bind] at h

/-- No assignment-register names means no register is flagged as assignment. -/
theorem assignment_registers_nil (st : ConverterState)
    (h : st.assignment_registers = []) :
    ∀ nr ∈ st.registers, nr.2.is_assignment = false := by
  intro nr hmem
  by_contra hne
  have htrue : nr.2.is_assignment = true := by
    simpa using hne
  have hin : nr.1 ∈ st.assignment_registers := by
    simp only [ConverterState.assignment_registers]
    exact List.mem_filterMap.mpr ⟨nr, hmem, by rw [htrue]; simp⟩
  rw [h] at hin
  simp at hin

/-- `translate_code_lines` only emits PIL statements: PC name, line lookup
and registers are unchanged, and on success the free-value query construction
succeeded on the input state. -/
theorem translate_preserves (st st' : ConverterState)
    (h : translate_code_lines st = Except.ok st') :
    st'.pc_name = st.pc_name ∧ st'.line_lookup = st.line_lookup
    ∧ st'.registers = st.registers
    ∧ ∃ q, mkFreeValueQueries st = Except.ok q := by
  simp only [translate_code_lines] at h
  obtain ⟨fvq, hq, h⟩ := except_bind_ok h
  obtain ⟨pf, hlines, h⟩ := except_bind_ok h
  obtain ⟨fvp, hmap, h⟩ := except_bind_ok h
  injection h with h2
  rw [← h2]
  refine ⟨?_, ?_, ?_, ⟨fvq, hq⟩⟩
  · exact (foldl_pushPil_fields _ pf.1 _).1
  · exact (foldl_pushPil_fields _ pf.1 _).2.1
  · exact (foldl_pushPil_fields _ pf.1 _).2.2

/-- The statements surviving the degree phase come from the input file. -/
theorem degreeAndRest_tail (stmts : List ASMStatement) (er : Nat × List ASMStatement)
    (h : degreeAndRest stmts = Except.ok er) : ∀ s ∈ er.2, s ∈ stmts := by
  have h1024 : set_degree 1024 = Except.ok 10 := rfl
  cases stmts with
  | nil =>
    simp only [degreeAndRest, h1024, Bind.bind, Except.bind] at h
    injection h with h2
    rw [← h2]
    intro s hs
    exact hs
  | cons s0 rest =>
    cases s0 with
    | Degree a d =>
      cases hs : set_degree (abstract_to_degree d) with
      | error e =>
        simp only [degreeAndRest, h1024, hs, Bind.bind, Except.bind] at h
        exact Except.noConfusion h
      | ok e2 =>
        simp only [degreeAndRest, h1024, hs, Bind.bind, Except.bind] at h
        injection h with h2
        rw [← h2]
        intro s hsm
        exact List.mem_cons_of_mem _ hsm
    | RegisterDeclaration a b c =>
      simp only [degreeAndRest, h1024, Bind.bind, Except.bind] at h
      injection h with h2
      rw [← h2]
      intro s hs
      exact hs
    | InstructionDeclaration a b c d =>
      simp only [degreeAndRest, h1024, Bind.bind, Except.bind] at h
      injection h with h2
      rw [← h2]
      intro s hs
      exact hs
    | InlinePil a b =>
      simp only [degreeAndRest, h1024, Bind.bind, Except.bind] at h
      injection h with h2
      rw [← h2]
      intro s hs
      exact hs
    | Assignment a b c d =>
      simp only [degreeAndRest, h1024, Bind.bind, Except.bind] at h
      injection h with h2
      rw [← h2]
      intro s hs
      exact hs
    | Instruction a b c =>
      simp only [degreeAndRest, h1024, Bind.bind, Except.bind] at h
      injection h with h2
      rw [← h2]
      intro s hs
      exact hs
    | Label a b =>
      simp only [degreeAndRest, h1024, Bind.bind, Except.bind] at h
      injection h with h2
      rw [← h2]
      intro s hs
      exact hs

/-- C2 counterexample: a program with no PC but one assignment register is
rejected (building the free-input queries dereferences the missing PC name),
so compilation does not succeed on every PC-free program. -/
theorem c2_counterexample :
    noPcAssignFile.statements.all (fun s => !declaresPC s) = true
    ∧ isOkE (convert noPcAssignFile) = false :=
  ⟨rfl, rfl⟩

/-- C2 amended: a PC-free program compiles only if it declares no assignment
register; whenever compilation of a PC-free program succeeds, no PC name is
recorded, no line-lookup pair (hence no pair of the final plookup) points at
the `line` fixed column, no register is an assignment register, and the
free-input query map is empty, so no free-input query tuple contains a PC
entry. -/
theorem c2_no_pc_amended (f : ASMFile) (st' : ConverterState)
    (hnopc : f.statements.all (fun s => !declaresPC s) = true)
    (h : convertState f = Except.ok st') :
    st'.pc_name = none
    ∧ (∀ p ∈ st'.line_lookup, p.2 ≠ "line")
    ∧ (∀ nr ∈ st'.registers, nr.2.is_assignment = false)
    ∧ mkFreeValueQueries st' = Except.ok [] := by
  have hall : ∀ s ∈ f.statements, declaresPC s = false := by
    intro s hs
    have := List.all_eq_true.mp hnopc s hs
    simpa using this
  simp only [convertState] at h
  obtain ⟨er, her, h⟩ := except_bind_ok h
  obtain ⟨stA, hps, h⟩ := except_bind_ok h
  obtain ⟨stB, hcc, h⟩ := except_bind_ok h
  obtain ⟨stD, htr, h⟩ := except_bind_ok h
  injection h with h2
  have hmemf := degreeAndRest_tail f.statements er her
  have hallrest : ∀ s ∈ er.2, declaresPC s = false := fun s hs => hall s (hmemf s hs)
  have hgA : GoodState stA :=
    goodState_processStatements er.2 _ stA hallrest hps
      ⟨rfl, by intro p hp; simp [pushPil] at hp⟩
  have hccres := foldlM_ccfar stA.assignment_registers stA stB hcc
  have hgB : GoodState stB := hccres.1 hgA
  have htrres := translate_preserves _ stD htr
  obtain ⟨q, hq⟩ := htrres.2.2.2
  have hpcC : ({ stB with pil := stB.pil ++ updateIdentityStatements stB } :
      ConverterState).pc_name = none := hgB.1
  have hnil := mkFreeValueQueries_none _ hpcC q hq
  have hregsC := assignment_registers_nil _ hnil.1
  rw [← h2]
  refine ⟨htrres.1.trans hgB.1, ?_, ?_, ?_⟩
  · intro p hp
    have hp' : p ∈ stD.line_lookup := hp
    rw [htrres.2.1] at hp'
    exact hgB.2 p hp'
  · intro nr hnr
    have hnr' : nr ∈ stD.registers := hnr
    rw [htrres.2.2.1] at hnr'
    exact hregsC nr hnr'
  · have hempty : (pushPil stD (Statement.PlookupIdentity 0
        ⟨none, stD.line_lookup.map (fun x => direct_reference x.1)⟩
        ⟨none, stD.line_lookup.map (fun x => direct_reference x.2)⟩)).assignment_registers
          = [] := by
      show stD.registers.filterMap
        (fun nr => if nr.2.is_assignment then some nr.1 else none) = []
      rw [htrres.2.2.1]
      exact hnil.1
    simp only [mkFreeValueQueries]
    rw [hempty]
    rfl

/-- C2 witness: the amended theorem applies to the empty program, which has no
PC and compiles successfully. -/
theorem c2_witness :
    emptyFile.statements.all (fun s => !declaresPC s) = true
    ∧ (emptyConvertedState.pc_name = none
      ∧ (∀ p ∈ emptyConvertedState.line_lookup, p.2 ≠ "line")
      ∧ (∀ nr ∈ emptyConvertedState.registers, nr.2.is_assignment = false)
      ∧ mkFreeValueQueries emptyConvertedState = Except.ok []) :=
  ⟨rfl, c2_no_pc_amended emptyFile emptyConvertedState rfl rfl⟩

end PowdrAsm
